import Mathlib

/-!
Shallow embedding of the PavlovReplayToolbox core pipeline
(bounded write buffer, metadata record encoder, container assembler,
discovery/retry orchestration) together with theorems checking the
specification's claims against the code.

Byte strings are modelled as `List Nat` (each element a byte value);
machine integers are modelled as `Int`/`Nat` with explicit reduction
modulo `2 ^ w` where the code performs a narrowing cast.
-/

namespace Pavlov

/-- Bytes of a binary buffer. -/
abbrev Bytes := List Nat

/-- Little-endian encoding of an integer into `w` bytes, reducing modulo
`2 ^ (8 * w)` exactly as Rust's `to_le_bytes` on a fixed-width integer does. -/
def leBytes (w : Nat) (v : Int) : Bytes :=
  (List.range w).map fun i => ((v % ((2 : Int) ^ (8 * w))).toNat / 2 ^ (8 * i)) % 256

/-- UTF-16 code units of a single unicode scalar, as produced by Rust's
`char::encode_utf16`: one unit for BMP scalars, a surrogate pair otherwise. -/
def utf16Units (c : Char) : List Nat :=
  let n := c.toNat
  if n < 0x10000 then [n]
  else [0xD800 + (n - 0x10000) / 0x400, 0xDC00 + (n - 0x10000) % 0x400]

/-- UTF-16LE byte encoding of a string, as produced by
`s.encode_utf16().flat_map(u16::to_le_bytes)` in `build_meta`. -/
def utf16leBytes (s : String) : Bytes :=
  (s.data.flatMap utf16Units).flatMap fun u => [u % 256, u / 256 % 256]

/-- UTF-8 byte encoding of a single unicode scalar (Rust `str::as_bytes`). -/
def utf8Bytes (c : Char) : Bytes :=
  let n := c.toNat
  if n < 0x80 then [n]
  else if n < 0x800 then [0xC0 + n / 64, 0x80 + n % 64]
  else if n < 0x10000 then [0xE0 + n / 4096, 0x80 + n / 64 % 64, 0x80 + n % 64]
  else [0xF0 + n / 262144, 0x80 + n / 4096 % 64, 0x80 + n / 64 % 64, 0x80 + n % 64]

/-- UTF-8 bytes of a string. -/
def strBytes (s : String) : Bytes :=
  s.data.flatMap utf8Bytes

/-- Mirrors `ReplayBuffer` from `replay_buffer.rs`: a fixed-capacity byte
buffer with a write cursor. -/
structure ReplayBuffer where
  buffer : Bytes
  pos : Nat
deriving DecidableEq

namespace ReplayBuffer

/-- Mirrors `ReplayBuffer::with_capacity`: a zero-filled buffer of the given
capacity with the cursor at 0. -/
def with_capacity (capacity : Nat) : ReplayBuffer :=
  ⟨List.replicate capacity 0, 0⟩

/-- Mirrors `ReplayBuffer::write_bytes`: overflow check, then splice the bytes
in at the cursor and advance. -/
def write_bytes (b : ReplayBuffer) (bs : Bytes) : Except String ReplayBuffer :=
  if b.pos + bs.length > b.buffer.length then
    .error "Buffer overflow while writing bytes"
  else
    .ok ⟨b.buffer.take b.pos ++ bs ++ b.buffer.drop (b.pos + bs.length),
         b.pos + bs.length⟩

/-- Mirrors `ReplayBuffer::write_int32` (little-endian `i32`). -/
def write_int32 (b : ReplayBuffer) (v : Int) : Except String ReplayBuffer :=
  if b.pos + 4 > b.buffer.length then
    .error "Buffer overflow while writing int32"
  else
    .ok ⟨b.buffer.take b.pos ++ leBytes 4 v ++ b.buffer.drop (b.pos + 4),
         b.pos + 4⟩

/-- Mirrors `ReplayBuffer::write_int64` (little-endian `i64`). -/
def write_int64 (b : ReplayBuffer) (v : Int) : Except String ReplayBuffer :=
  if b.pos + 8 > b.buffer.length then
    .error "Buffer overflow while writing int64"
  else
    .ok ⟨b.buffer.take b.pos ++ leBytes 8 v ++ b.buffer.drop (b.pos + 8),
         b.pos + 8⟩

/-- Mirrors `ReplayBuffer::validate`: the cursor must equal the expected
total, otherwise a size-mismatch error. -/
def validate (b : ReplayBuffer) (expected : Nat) : Except String Unit :=
  if b.pos ≠ expected then
    .error "Invalid buffer size"
  else
    .ok ()

/-- Mirrors `ReplayBuffer::into_inner`. -/
def into_inner (b : ReplayBuffer) : Bytes :=
  b.buffer

end ReplayBuffer

/-- Mirrors the `MetaData` record consumed by `build_meta` (field names follow
`build_meta.rs`). -/
structure MetaData where
  gameMode : String
  friendlyName : String
  competitive : Bool
  workshop_mods : String
  live : Bool
  totalTime : Int
  version : Int
  created : String
deriving DecidableEq

/-- Size of the friendly-name block, `FRIENDLY_NAME_SIZE` in `build_meta.rs`. -/
def FRIENDLY_NAME_SIZE : Nat := 514

/-- Mirrors the composed display string of `build_meta`:
gameMode, friendlyName, competitive/casual, a literal 0, workshop mods and
the live flag, comma-separated. -/
def friendly_name_str (meta : MetaData) : String :=
  meta.gameMode ++ "," ++ meta.friendlyName ++ ","
    ++ (if meta.competitive then "competitive" else "casual")
    ++ ",0," ++ meta.workshop_mods ++ ","
    ++ (if meta.live then "true" else "false")

/-- Content of the 514-byte block before the copy: UTF-16LE spaces
(0x20, 0x00 pairs) over the first 512 bytes, then two 0x00 terminator
bytes, exactly as the fill loop of `build_meta` produces. -/
def friendly_name_pad : Bytes :=
  (List.range FRIENDLY_NAME_SIZE).map fun i =>
    if i < 512 then (if i % 2 = 0 then 0x20 else 0) else 0

/-- Mirrors the friendly-name block construction of `build_meta`: the first
`min (length nameBytes) 514` bytes of the encoded string copied over the
padded block. -/
def friendly_name_block (nameBytes : Bytes) : Bytes :=
  let copyLen := min nameBytes.length FRIENDLY_NAME_SIZE
  nameBytes.take copyLen ++ friendly_name_pad.drop copyLen

/-- Mirrors `build_meta` from `build_meta.rs`. The external chrono parse of
the `created` field (RFC3339 first, integer Unix-seconds fallback) is
abstracted as `parseCreated`, returning the parsed Unix milliseconds, `none`
when both parses fail. -/
def build_meta (parseCreated : String → Option Int) (meta : MetaData) :
    Except String Bytes := do
  let expected_size := 48 + FRIENDLY_NAME_SIZE
  let buf := ReplayBuffer.with_capacity expected_size
  let buf ← buf.write_int32 0x1CA2E27F
  let buf ← buf.write_int32 6
  let buf ← buf.write_int32 meta.totalTime
  let buf ← buf.write_int32 meta.version
  let buf ← buf.write_int32 0
  let buf ← buf.write_int32 (-257)
  let nameBytes := utf16leBytes (friendly_name_str meta)
  let buf ← buf.write_bytes (friendly_name_block nameBytes)
  let buf ← buf.write_int32 (if meta.live then 1 else 0)
  match parseCreated meta.created with
  | none => .error "Invalid timestamp"
  | some millis =>
    let timestamp := millis * 10000 + 621355968000000000
    let buf ← buf.write_int64 timestamp
    let buf ← buf.write_int32 0
    let buf ← buf.write_int32 0
    let buf ← buf.write_int32 0
    buf.validate expected_size
    pure buf.into_inner

theorem leBytes_length (w : Nat) (v : Int) : (leBytes w v).length = w := by
  simp [leBytes]

theorem friendly_name_pad_length : friendly_name_pad.length = 514 := by
  simp [friendly_name_pad, FRIENDLY_NAME_SIZE]

theorem friendly_name_block_length (nameBytes : Bytes) :
    (friendly_name_block nameBytes).length = 514 := by
  simp only [friendly_name_block, List.length_append, List.length_take,
    List.length_drop, friendly_name_pad_length, FRIENDLY_NAME_SIZE]
  omega

theorem except_ok_bind {α β ε : Type} (a : α) (f : α → Except ε β) :
    (Except.ok a >>= f) = f a := rfl

theorem except_style_bind {α β : Type} (a : α) (f : α → Option β) :
    (some a >>= f) = f a := rfl

theorem option_some_bind {α β : Type} (a : α) (f : α → Option β) :
    (Option.some a).bind f = f a := rfl

theorem write_int32_ok (b : ReplayBuffer) (v : Int)
    (h : b.pos + 4 ≤ b.buffer.length) :
    ∃ b2, b.write_int32 v = .ok b2 ∧
      b2.buffer.length = b.buffer.length ∧ b2.pos = b.pos + 4 := by
  refine ⟨⟨b.buffer.take b.pos ++ leBytes 4 v ++ b.buffer.drop (b.pos + 4),
    b.pos + 4⟩, ?_, ?_, rfl⟩
  · rw [ReplayBuffer.write_int32, if_neg (by omega)]
  · simp only [List.length_append, List.length_take, List.length_drop,
      leBytes_length]
    omega

theorem write_int64_ok (b : ReplayBuffer) (v : Int)
    (h : b.pos + 8 ≤ b.buffer.length) :
    ∃ b2, b.write_int64 v = .ok b2 ∧
      b2.buffer.length = b.buffer.length ∧ b2.pos = b.pos + 8 := by
  refine ⟨⟨b.buffer.take b.pos ++ leBytes 8 v ++ b.buffer.drop (b.pos + 8),
    b.pos + 8⟩, ?_, ?_, rfl⟩
  · rw [ReplayBuffer.write_int64, if_neg (by omega)]
  · simp only [List.length_append, List.length_take, List.length_drop,
      leBytes_length]
    omega

theorem write_bytes_ok (b : ReplayBuffer) (bs : Bytes)
    (h : b.pos + bs.length ≤ b.buffer.length) :
    ∃ b2, b.write_bytes bs = .ok b2 ∧
      b2.buffer.length = b.buffer.length ∧ b2.pos = b.pos + bs.length := by
  refine ⟨⟨b.buffer.take b.pos ++ bs ++ b.buffer.drop (b.pos + bs.length),
    b.pos + bs.length⟩, ?_, ?_, rfl⟩
  · rw [ReplayBuffer.write_bytes, if_neg (by omega)]
  · simp only [List.length_append, List.length_take, List.length_drop]
    omega

/-- Helper used by the claims about `build_meta`: whenever the `created`
field parses, every write fits, the 562-byte validation passes and the
encoder returns a 562-byte record. -/
theorem build_meta_ok (parseCreated : String → Option Int) (meta : MetaData)
    (t : Int) (h : parseCreated meta.created = some t) :
    ∃ bs, build_meta parseCreated meta = .ok bs ∧ bs.length = 562 := by
  have hcap : (ReplayBuffer.with_capacity (48 + FRIENDLY_NAME_SIZE)).buffer.length = 562 ∧
      (ReplayBuffer.with_capacity (48 + FRIENDLY_NAME_SIZE)).pos = 0 := by
    constructor <;>
      simp only [ReplayBuffer.with_capacity, List.length_replicate,
        FRIENDLY_NAME_SIZE]
  obtain ⟨hc, hp⟩ := hcap
  obtain ⟨b1, e1, hl1, hp1⟩ :=
    write_int32_ok (ReplayBuffer.with_capacity (48 + FRIENDLY_NAME_SIZE))
      0x1CA2E27F (by omega)
  obtain ⟨b2, e2, hl2, hp2⟩ := write_int32_ok b1 6 (by omega)
  obtain ⟨b3, e3, hl3, hp3⟩ := write_int32_ok b2 meta.totalTime (by omega)
  obtain ⟨b4, e4, hl4, hp4⟩ := write_int32_ok b3 meta.version (by omega)
  obtain ⟨b5, e5, hl5, hp5⟩ := write_int32_ok b4 0 (by omega)
  obtain ⟨b6, e6, hl6, hp6⟩ := write_int32_ok b5 (-257) (by omega)
  obtain ⟨b7, e7, hl7, hp7⟩ := write_bytes_ok b6
    (friendly_name_block (utf16leBytes (friendly_name_str meta)))
    (by rw [friendly_name_block_length]; omega)
  rw [friendly_name_block_length] at hp7
  obtain ⟨b8, e8, hl8, hp8⟩ := write_int32_ok b7
    (if meta.live then 1 else 0) (by omega)
  obtain ⟨b9, e9, hl9, hp9⟩ := write_int64_ok b8
    (t * 10000 + 621355968000000000) (by omega)
  obtain ⟨b10, e10, hl10, hp10⟩ := write_int32_ok b9 0 (by omega)
  obtain ⟨b11, e11, hl11, hp11⟩ := write_int32_ok b10 0 (by omega)
  obtain ⟨b12, e12, hl12, hp12⟩ := write_int32_ok b11 0 (by omega)
  have hval : b12.validate (48 + FRIENDLY_NAME_SIZE) = .ok () := by
    rw [ReplayBuffer.validate, if_neg]
    simp only [FRIENDLY_NAME_SIZE]
    omega
  refine ⟨b12.into_inner, ?_, ?_⟩
  · simp only [build_meta, e1, except_ok_bind, e2, e3, e4, e5, e6, e7, e8, h,
      e9, e10, e11, e12, hval]
    rfl
  · rw [ReplayBuffer.into_inner]
    omega

/-- Mirrors the `Chunk` record of `replay_processor.rs`. -/
structure Chunk where
  data : Bytes
  chunk_type : Nat
  time1 : Option Int
  time2 : Option Int
  id : Option String
  group : Option String
  metadata : Option String
  size_in_bytes : Option Int
deriving DecidableEq

/-- Mirrors `ReplayPart` of `build_replay.rs`: either the pre-encoded meta
record or a chunk. -/
inductive ReplayPart where
  | meta (data : Bytes)
  | chunk (c : Chunk)
deriving DecidableEq

/-- Mirrors `write_string_buffer`: an `i32` byte length (counting the
appended NUL) followed by the UTF-8 bytes and one 0x00 byte. -/
def write_string_buffer (s : String) : Bytes :=
  let sBytes := strBytes s ++ [0]
  leBytes 4 (Int.ofNat sBytes.length) ++ sBytes

/-- Encoding of the 8-byte chunk header of `build_replay`:
chunk type as `u32`, body length as `i32`, both little-endian. -/
def chunk_header (t : Nat) (bodyLen : Nat) : Bytes :=
  leBytes 4 (Int.ofNat t) ++ leBytes 4 (Int.ofNat bodyLen)

/-- Encoded bytes contributed by one chunk in `build_replay`'s loop:
header plus body for the four known chunk types, the empty contribution for
an unknown type (the loop logs a warning and `continue`s), and `none` for
the `unwrap` panic on a type-2/3 chunk missing `id` or `group`. -/
def encode_chunk (c : Chunk) : Option Bytes :=
  match c.chunk_type with
  | 0 => some (chunk_header 0 c.data.length ++ c.data)
  | 1 =>
    let time1 := c.time1.getD 0
    let time2 := c.time2.getD 0
    let data_len : Int := Int.ofNat c.data.length
    let size_in_bytes := c.size_in_bytes.getD data_len
    let body := leBytes 4 time1 ++ leBytes 4 time2 ++ leBytes 4 data_len
      ++ leBytes 4 size_in_bytes ++ c.data
    some (chunk_header 1 body.length ++ body)
  | 2 | 3 =>
    match c.id, c.group with
    | some i, some g =>
      let meta_str := c.metadata.getD ""
      let body := write_string_buffer i ++ write_string_buffer g
        ++ write_string_buffer meta_str
        ++ leBytes 4 (c.time1.getD 0) ++ leBytes 4 (c.time2.getD 0)
        ++ leBytes 4 (Int.ofNat c.data.length) ++ c.data
      some (chunk_header c.chunk_type body.length ++ body)
    | _, _ => none
  | _ => some []

/-- Mirrors `build_replay`: concatenate the meta parts verbatim and each
chunk's header-framed encoding in list order. `none` models the panic on a
type-2/3 chunk with missing `id`/`group`. -/
def build_replay : List ReplayPart → Option Bytes
  | [] => some []
  | .meta d :: rest => (build_replay rest).map fun bs => d ++ bs
  | .chunk c :: rest => do
    let e ← encode_chunk c
    let bs ← build_replay rest
    some (e ++ bs)

theorem write_string_buffer_length (s : String) :
    (write_string_buffer s).length = 4 + (strBytes s).length + 1 := by
  simp only [write_string_buffer, List.length_append, leBytes_length,
    List.length_cons, List.length_nil]
  omega

/-- C1: for every `MetaData` whose `created` field parses (modelled by the
abstract chrono parse `parseCreated` returning some milliseconds value),
`build_meta` succeeds — so the internal `validate (48 + 514)` check passed —
and the returned record is exactly 562 bytes. -/
theorem build_meta_record_562 (parseCreated : String → Option Int)
    (meta : MetaData) (t : Int) (h : parseCreated meta.created = some t) :
    ∃ bs, build_meta parseCreated meta = .ok bs ∧ bs.length = 562 :=
  build_meta_ok parseCreated meta t h

/-- Example metadata value used by concrete witnesses. -/
def metaEx : MetaData :=
  ⟨"SND", "My Replay", false, "mods", false, 100, 1, "1700000000"⟩

/-- Witness for C1 at a concrete metadata value and parse result. -/
theorem build_meta_record_562_witness :
    (fun (_ : String) => some (1700000000000 : Int)) metaEx.created
        = some 1700000000000 ∧
      ∃ bs, build_meta (fun _ => some 1700000000000) metaEx = .ok bs ∧
        bs.length = 562 :=
  ⟨rfl, build_meta_record_562 (fun _ => some 1700000000000) metaEx
    1700000000000 rfl⟩

/-- C2: the body-length field framed into the 8-byte chunk header equals
`len data` for a type-0 chunk, `16 + len data` for a type-1 chunk, and
`(4+len id+1) + (4+len group+1) + (4+len metadata+1) + 12 + len data` for a
type-2/3 chunk (metadata defaulting to the empty string), where `len` of a
string is its UTF-8 byte length. -/
theorem chunk_body_length_formula (c : Chunk) :
    (c.chunk_type = 0 → ∃ body, encode_chunk c
        = some (chunk_header 0 body.length ++ body) ∧
        body.length = c.data.length) ∧
    (c.chunk_type = 1 → ∃ body, encode_chunk c
        = some (chunk_header 1 body.length ++ body) ∧
        body.length = 16 + c.data.length) ∧
    (∀ i g, (c.chunk_type = 2 ∨ c.chunk_type = 3) → c.id = some i →
      c.group = some g →
      ∃ body, encode_chunk c
          = some (chunk_header c.chunk_type body.length ++ body) ∧
          body.length = (4 + (strBytes i).length + 1)
            + (4 + (strBytes g).length + 1)
            + (4 + (strBytes (c.metadata.getD "")).length + 1)
            + 12 + c.data.length) := by
  refine ⟨?_, ?_, ?_⟩
  · intro h0
    refine ⟨c.data, ?_, rfl⟩
    simp only [encode_chunk, h0]
  · intro h1
    refine ⟨leBytes 4 (c.time1.getD 0) ++ leBytes 4 (c.time2.getD 0)
      ++ leBytes 4 (Int.ofNat c.data.length)
      ++ leBytes 4 (c.size_in_bytes.getD (Int.ofNat c.data.length))
      ++ c.data, ?_, ?_⟩
    · simp only [encode_chunk, h1]
    · simp only [List.length_append, leBytes_length]
  · intro i g ht hi hg
    rcases ht with h2 | h3
    · refine ⟨write_string_buffer i ++ write_string_buffer g
        ++ write_string_buffer (c.metadata.getD "")
        ++ leBytes 4 (c.time1.getD 0) ++ leBytes 4 (c.time2.getD 0)
        ++ leBytes 4 (Int.ofNat c.data.length) ++ c.data, ?_, ?_⟩
      · simp only [encode_chunk, h2, hi, hg]
      · simp only [List.length_append, leBytes_length,
          write_string_buffer_length]
    · refine ⟨write_string_buffer i ++ write_string_buffer g
        ++ write_string_buffer (c.metadata.getD "")
        ++ leBytes 4 (c.time1.getD 0) ++ leBytes 4 (c.time2.getD 0)
        ++ leBytes 4 (Int.ofNat c.data.length) ++ c.data, ?_, ?_⟩
      · simp only [encode_chunk, h3, hi, hg]
      · simp only [List.length_append, leBytes_length,
          write_string_buffer_length]

/-- Example chunks used by concrete witnesses. -/
def chunk1Ex : Chunk := ⟨[9, 9], 1, some 5, some 6, none, none, none, none⟩

/-- Example type-2 chunk with id and group present. -/
def chunk2Ex : Chunk :=
  ⟨[1, 2, 3], 2, none, none, some "id0", some "checkpoint", none, none⟩

/-- Witness for C2 at a concrete type-1 chunk. -/
theorem chunk_body_length_formula_witness :
    ∃ body, encode_chunk chunk1Ex
        = some (chunk_header 1 body.length ++ body) ∧
      body.length = 16 + chunk1Ex.data.length :=
  (chunk_body_length_formula chunk1Ex).2.1 rfl

/-- Parts are kept by `build_replay`'s encoding loop unless they are chunks
of an unknown type (anything other than 0–3). -/
def known_part (p : ReplayPart) : Bool :=
  match p with
  | .meta _ => true
  | .chunk c => c.chunk_type ≤ 3

theorem encode_chunk_known_some (c : Chunk)
    (h : (c.chunk_type = 2 ∨ c.chunk_type = 3) →
      c.id.isSome ∧ c.group.isSome) :
    ∃ e, encode_chunk c = some e := by
  have hcase : c.chunk_type = 0 ∨ c.chunk_type = 1 ∨ c.chunk_type = 2 ∨
      c.chunk_type = 3 ∨ ∃ m, c.chunk_type = m + 4 := by
    rcases c.chunk_type with _ | _ | _ | _ | m
    · exact Or.inl rfl
    · exact Or.inr (Or.inl rfl)
    · exact Or.inr (Or.inr (Or.inl rfl))
    · exact Or.inr (Or.inr (Or.inr (Or.inl rfl)))
    · exact Or.inr (Or.inr (Or.inr (Or.inr ⟨m, rfl⟩)))
  rcases hcase with h0 | h1 | h2 | h3 | ⟨m, hm⟩
  · exact ⟨chunk_header 0 c.data.length ++ c.data,
      by simp only [encode_chunk, h0]⟩
  · exact ⟨chunk_header 1 (leBytes 4 (c.time1.getD 0)
        ++ leBytes 4 (c.time2.getD 0) ++ leBytes 4 (Int.ofNat c.data.length)
        ++ leBytes 4 (c.size_in_bytes.getD (Int.ofNat c.data.length))
        ++ c.data).length
      ++ (leBytes 4 (c.time1.getD 0) ++ leBytes 4 (c.time2.getD 0)
        ++ leBytes 4 (Int.ofNat c.data.length)
        ++ leBytes 4 (c.size_in_bytes.getD (Int.ofNat c.data.length))
        ++ c.data),
      by simp only [encode_chunk, h1]⟩
  · obtain ⟨hi, hg⟩ := h (Or.inl h2)
    obtain ⟨i, hi⟩ := Option.isSome_iff_exists.mp hi
    obtain ⟨g, hg⟩ := Option.isSome_iff_exists.mp hg
    exact ⟨chunk_header c.chunk_type (write_string_buffer i
          ++ write_string_buffer g ++ write_string_buffer (c.metadata.getD "")
          ++ leBytes 4 (c.time1.getD 0) ++ leBytes 4 (c.time2.getD 0)
          ++ leBytes 4 (Int.ofNat c.data.length) ++ c.data).length
        ++ (write_string_buffer i ++ write_string_buffer g
          ++ write_string_buffer (c.metadata.getD "")
          ++ leBytes 4 (c.time1.getD 0) ++ leBytes 4 (c.time2.getD 0)
          ++ leBytes 4 (Int.ofNat c.data.length) ++ c.data),
      by simp only [encode_chunk, h2, hi, hg]⟩
  · obtain ⟨hi, hg⟩ := h (Or.inr h3)
    obtain ⟨i, hi⟩ := Option.isSome_iff_exists.mp hi
    obtain ⟨g, hg⟩ := Option.isSome_iff_exists.mp hg
    exact ⟨chunk_header c.chunk_type (write_string_buffer i
          ++ write_string_buffer g ++ write_string_buffer (c.metadata.getD "")
          ++ leBytes 4 (c.time1.getD 0) ++ leBytes 4 (c.time2.getD 0)
          ++ leBytes 4 (Int.ofNat c.data.length) ++ c.data).length
        ++ (write_string_buffer i ++ write_string_buffer g
          ++ write_string_buffer (c.metadata.getD "")
          ++ leBytes 4 (c.time1.getD 0) ++ leBytes 4 (c.time2.getD 0)
          ++ leBytes 4 (Int.ofNat c.data.length) ++ c.data),
      by simp only [encode_chunk, h3, hi, hg]⟩
  · exact ⟨[], by simp only [encode_chunk, hm]⟩

theorem encode_chunk_unknown (c : Chunk) (h : 4 ≤ c.chunk_type) :
    encode_chunk c = some [] := by
  obtain ⟨m, hm⟩ : ∃ m, c.chunk_type = m + 4 := ⟨c.chunk_type - 4, by omega⟩
  simp only [encode_chunk, hm]

/-- C10: if every type-2/3 chunk in the part list has both `id` and `group`
present, `build_replay` succeeds (no panic, no error), and chunks of unknown
type contribute no bytes: filtering them out leaves the output unchanged. -/
theorem build_replay_total_skips_unknown (parts : List ReplayPart)
    (h : ∀ c, ReplayPart.chunk c ∈ parts →
      (c.chunk_type = 2 ∨ c.chunk_type = 3) →
      c.id.isSome ∧ c.group.isSome) :
    (∃ bs, build_replay parts = some bs) ∧
      build_replay parts = build_replay (parts.filter known_part) := by
  induction parts with
  | nil => exact ⟨⟨[], rfl⟩, rfl⟩
  | cons p rest ih =>
    have hrest : ∀ c, ReplayPart.chunk c ∈ rest →
        (c.chunk_type = 2 ∨ c.chunk_type = 3) →
        c.id.isSome ∧ c.group.isSome := by
      intro c hc
      exact h c (List.mem_cons_of_mem _ hc)
    obtain ⟨⟨bs, hbs⟩, hfilter⟩ := ih hrest
    cases p with
    | meta d =>
      constructor
      · exact ⟨d ++ bs, by rw [build_replay, hbs]; rfl⟩
      · have hfc : (ReplayPart.meta d :: rest).filter known_part
            = ReplayPart.meta d :: rest.filter known_part := by
          simp [List.filter_cons, known_part]
        rw [hfc, build_replay, build_replay, hfilter]
    | chunk c =>
      obtain ⟨e, he⟩ := encode_chunk_known_some c (h c (List.mem_cons_self _ _))
      by_cases hk : c.chunk_type ≤ 3
      · constructor
        · exact ⟨e ++ bs, by
            rw [build_replay, he, except_style_bind, hbs]
            rfl⟩
        · have hfc : (ReplayPart.chunk c :: rest).filter known_part
              = ReplayPart.chunk c :: rest.filter known_part := by
            simp [List.filter_cons, known_part, hk]
          rw [hfc, build_replay, build_replay, hfilter]
      · have he0 : encode_chunk c = some [] :=
          encode_chunk_unknown c (by omega)
        constructor
        · exact ⟨bs, by
            rw [build_replay, he0, except_style_bind, hbs]
            rfl⟩
        · have hfc : (ReplayPart.chunk c :: rest).filter known_part
              = rest.filter known_part := by
            simp [List.filter_cons, known_part, hk]
          rw [hfc, build_replay, he0, except_style_bind, ← hfilter, hbs]
          rfl

/-- Witness for C10 at a concrete part list containing a meta part, a
type-2 chunk with id and group present, and an unknown type-7 chunk. -/
theorem build_replay_total_skips_unknown_witness :
    (∃ bs, build_replay [ReplayPart.meta [5], ReplayPart.chunk chunk2Ex,
        ReplayPart.chunk ⟨[1], 7, none, none, none, none, none, none⟩]
      = some bs) ∧
      build_replay [ReplayPart.meta [5], ReplayPart.chunk chunk2Ex,
        ReplayPart.chunk ⟨[1], 7, none, none, none, none, none, none⟩]
      = build_replay ([ReplayPart.meta [5], ReplayPart.chunk chunk2Ex,
          ReplayPart.chunk ⟨[1], 7, none, none, none, none, none, none⟩].filter
          known_part) :=
  build_replay_total_skips_unknown _ (by
    intro c hc
    simp only [List.mem_cons, List.not_mem_nil, or_false] at hc
    rcases hc with h | h | h
    · exact ReplayPart.noConfusion h
    · injection h with h2
      subst h2
      intro hmem
      decide
    · injection h with h3
      subst h3
      intro hmem
      exact absurd hmem (by decide))

/-- Mirrors `EventData` of `replay_processor.rs`: an optional type tag and
optional payload bytes. -/
structure EventData where
  typ : Option String
  data : Option Bytes
deriving DecidableEq

/-- Mirrors `Event` of `replay_processor.rs`. -/
structure Event where
  id : Option String
  group : Option String
  meta : Option String
  time1 : Option Int
  time2 : Option Int
  data : Option EventData
deriving DecidableEq

/-- Header chunk pushed first by `download_replay`. -/
def header_chunk (headerData : Bytes) : Chunk :=
  ⟨headerData, 0, none, none, none, none, none, none⟩

/-- Mirrors the event-chunk push of `download_replay` (lines 333–361): a
chunk is pushed whenever `event.data.and_then(d.data)` yields bytes; the
id, group and payload type tag are not inspected. -/
def download_event_chunk (t : Nat) (e : Event) : Option Chunk :=
  match e.data.bind (fun ed => ed.data) with
  | some d => some ⟨d, t, e.time1, e.time2, e.id, e.group, e.meta, none⟩
  | none => none

/-- Mirrors `stream_chunks.sort_by_key(i)` of `download_replay`. Rust's
`sort_by_key` is a stable sort; on the distinct indices produced by the
fan-out every stable (indeed every) sort yields the same list, so insertion
sort is a faithful model. -/
def sort_by_index (l : List (Nat × Chunk)) : List (Nat × Chunk) :=
  List.insertionSort (fun a b => a.1 ≤ b.1) l

/-- Mirrors the chunk-list assembly of `download_replay`: the header chunk,
the index-sorted stream chunks, the checkpoint-group event chunks (type 2),
then the Pavlov-group event chunks (type 3). -/
def download_chunks (headerData : Bytes) (streamResults : List (Nat × Chunk))
    (checkpointEvents pavlovEvents : List Event) : List Chunk :=
  header_chunk headerData :: ((sort_by_index streamResults).map Prod.snd
    ++ checkpointEvents.filterMap (download_event_chunk 2)
    ++ pavlovEvents.filterMap (download_event_chunk 3))

theorem sort_by_index_canonical (n : Nat) (f : Nat → Chunk)
    (res : List (Nat × Chunk))
    (hperm : res.Perm ((List.range n).map fun i => (i, f i))) :
    sort_by_index res = (List.range n).map fun i => (i, f i) := by
  haveI htr : IsTrans (Nat × Chunk) (fun a b => a.1 < b.1) :=
    ⟨fun a b c hab hbc => lt_trans hab hbc⟩
  haveI has : IsAntisymm (Nat × Chunk) (fun a b => a.1 < b.1) :=
    ⟨fun a b h1 h2 => absurd (lt_trans h1 h2) (lt_irrefl _)⟩
  haveI hto : IsTotal (Nat × Chunk) (fun a b => a.1 ≤ b.1) :=
    ⟨fun a b => Nat.le_total a.1 b.1⟩
  haveI htr2 : IsTrans (Nat × Chunk) (fun a b => a.1 ≤ b.1) :=
    ⟨fun a b c hab hbc => le_trans hab hbc⟩
  have hperm2 : (sort_by_index res).Perm
      ((List.range n).map fun i => (i, f i)) :=
    (List.perm_insertionSort _ res).trans hperm
  have hle : (sort_by_index res).Sorted fun a b => a.1 ≤ b.1 :=
    List.sorted_insertionSort _ res
  have hnd : ((sort_by_index res).map Prod.fst).Nodup := by
    have : ((sort_by_index res).map Prod.fst).Perm
        (((List.range n).map fun i => (i, f i)).map Prod.fst) :=
      hperm2.map Prod.fst
    refine this.nodup_iff.mpr ?_
    rw [List.map_map]
    have : (Prod.fst ∘ fun i => (i, f i)) = id := rfl
    rw [this, List.map_id]
    exact List.nodup_range n
  have hne : (sort_by_index res).Pairwise fun a b => a.1 ≠ b.1 :=
    (List.pairwise_map.mp hnd)
  have hlt : (sort_by_index res).Sorted fun a b => a.1 < b.1 := by
    have hand := hle.and hne
    exact hand.imp fun h => lt_of_le_of_ne h.1 h.2
  have hcan : (((List.range n).map fun i => (i, f i)).Sorted
      fun a b => a.1 < b.1) := by
    refine List.pairwise_map.mpr ?_
    exact (List.pairwise_lt_range n).imp fun h => h
  exact List.eq_of_perm_of_sorted hperm2 hlt hcan

/-- C3: regardless of the completion order of the parallel stream fetches
(any permutation of the index-tagged results), the chunk list built by
`download_replay` is the header chunk, then the stream chunks in ascending
index order, then checkpoint-group (type 2) events, then Pavlov-group
(type 3) events. -/
theorem download_chunk_order (hd : Bytes) (n : Nat) (f : Nat → Chunk)
    (res : List (Nat × Chunk)) (cp pav : List Event)
    (hperm : res.Perm ((List.range n).map fun i => (i, f i))) :
    download_chunks hd res cp pav
      = header_chunk hd :: ((List.range n).map f
        ++ cp.filterMap (download_event_chunk 2)
        ++ pav.filterMap (download_event_chunk 3)) := by
  rw [download_chunks, sort_by_index_canonical n f res hperm, List.map_map]
  rfl

/-- Example stream-chunk content for the C3 witness. -/
def streamEx (i : Nat) : Chunk := ⟨[i], 1, none, none, none, none, none, none⟩

/-- Witness for C3 with two stream results arriving in reverse order. -/
theorem download_chunk_order_witness :
    download_chunks [7] [(1, streamEx 1), (0, streamEx 0)] [] []
      = header_chunk [7] :: ((List.range 2).map streamEx
        ++ List.filterMap (download_event_chunk 2) []
        ++ List.filterMap (download_event_chunk 3) []) :=
  download_chunk_order [7] 2 streamEx [(1, streamEx 1), (0, streamEx 0)] [] []
    (by decide)

/-- HTTP response as seen by the retry helpers: only its status matters. -/
structure HttpResponse where
  status : Nat
deriving DecidableEq

/-- Result of one `client.get(url).send()` / `client.post(url).send()`:
either a response or a transport-level error. -/
inductive TransportResult where
  | ok (resp : HttpResponse)
  | err (msg : String)
deriving DecidableEq

/-- Whether a transport result is an `Err`. -/
def TransportResult.isErr : TransportResult → Bool
  | .ok _ => false
  | .err _ => true

/-- Errors returned by the retry helpers: an immediate status failure
carrying the HTTP status code, or a network failure naming the URL and the
attempt count. -/
inductive RetryError where
  | statusFailure (url : String) (status : Nat)
  | networkFailure (url : String) (attempts : Nat)
deriving DecidableEq

/-- Observable outcome of a retry loop run: the result, the number of
`send` calls made, and the backoff sleeps performed (in seconds). -/
structure RetryOutcome where
  result : Except RetryError HttpResponse
  calls : Nat
  sleeps : List Nat

/-- reqwest's `status().is_success()`: a 2xx status. -/
def is_success (s : Nat) : Prop := 200 ≤ s ∧ s < 300

instance (s : Nat) : Decidable (is_success s) := by
  unfold is_success
  infer_instance

/-- Mirrors the shared loop of `get_with_retry` / `post_with_retry`. The
transport is modelled as a function from the call number to its result. -/
def retry_loop (transport : Nat → TransportResult) (url : String)
    (max_retries : Nat) (call attempt backoff : Nat) : RetryOutcome :=
  match transport call with
  | .ok resp =>
    if is_success resp.status then ⟨.ok resp, 1, []⟩
    else ⟨.error (.statusFailure url resp.status), 1, []⟩
  | .err _ =>
    if max_retries ≤ attempt + 1 then
      ⟨.error (.networkFailure url (attempt + 1)), 1, []⟩
    else
      let rest := retry_loop transport url max_retries (call + 1)
        (attempt + 1) (backoff * 2)
      ⟨rest.result, rest.calls + 1, backoff :: rest.sleeps⟩
termination_by max_retries - attempt
decreasing_by omega

/-- Mirrors `get_with_retry` as called throughout `download_replay`:
`max_retries = 5`, first attempt 0, initial backoff 2 seconds. -/
def get_with_retry (transport : Nat → TransportResult) (url : String) :
    RetryOutcome :=
  retry_loop transport url 5 0 0 2

/-- Mirrors `post_with_retry`, identical to `get_with_retry` except for the
HTTP verb of the underlying transport. -/
def post_with_retry (transport : Nat → TransportResult) (url : String) :
    RetryOutcome :=
  retry_loop transport url 5 0 0 2

theorem backoff_cons (b k : Nat) :
    b :: (List.range k).map (fun i => b * 2 * 2 ^ i)
      = (List.range (k + 1)).map fun i => b * 2 ^ i := by
  rw [List.range_succ_eq_map, List.map_cons, List.map_map]
  refine congrArg₂ _ ?_ ?_
  · simp
  · refine List.map_congr_left ?_
    intro a ha
    show b * 2 * 2 ^ a = b * 2 ^ (a + 1)
    ring

theorem retry_loop_ok (transport : Nat → TransportResult) (url : String)
    (max_retries call attempt backoff : Nat) (r : HttpResponse)
    (h : transport call = .ok r) :
    retry_loop transport url max_retries call attempt backoff
      = if is_success r.status then ⟨.ok r, 1, []⟩
        else ⟨.error (.statusFailure url r.status), 1, []⟩ := by
  rw [retry_loop, h]

theorem retry_loop_err (transport : Nat → TransportResult) (url : String)
    (max_retries call attempt backoff : Nat) (m : String)
    (h : transport call = .err m) :
    retry_loop transport url max_retries call attempt backoff
      = if max_retries ≤ attempt + 1 then
          ⟨.error (.networkFailure url (attempt + 1)), 1, []⟩
        else
          let rest := retry_loop transport url max_retries (call + 1)
            (attempt + 1) (backoff * 2)
          ⟨rest.result, rest.calls + 1, backoff :: rest.sleeps⟩ := by
  rw [retry_loop, h]

theorem retry_loop_response (transport : Nat → TransportResult)
    (url : String) (max_retries : Nat) (r : HttpResponse) :
    ∀ k call attempt backoff, attempt + k < max_retries →
      (∀ j, j < k → (transport (call + j)).isErr = true) →
      transport (call + k) = .ok r →
      retry_loop transport url max_retries call attempt backoff
        = ⟨if is_success r.status then .ok r
            else .error (.statusFailure url r.status),
           k + 1, (List.range k).map fun i => backoff * 2 ^ i⟩ := by
  intro k
  induction k with
  | zero =>
    intro call attempt backoff hlt hfail hok
    rw [show call + 0 = call from rfl] at hok
    rw [retry_loop_ok transport url max_retries call attempt backoff r hok]
    by_cases hs : is_success r.status
    · rw [if_pos hs, if_pos hs]
      rfl
    · rw [if_neg hs, if_neg hs]
      rfl
  | succ k ih =>
    intro call attempt backoff hlt hfail hok
    have h0 : (transport call).isErr = true := by
      have := hfail 0 (by omega)
      rwa [show call + 0 = call from rfl] at this
    obtain ⟨m, hm⟩ : ∃ m, transport call = .err m := by
      cases he : transport call with
      | ok resp => rw [he] at h0; exact absurd h0 (by simp [TransportResult.isErr])
      | err m => exact ⟨m, rfl⟩
    have hrest := ih (call + 1) (attempt + 1) (backoff * 2) (by omega)
      (by
        intro j hj
        have := hfail (j + 1) (by omega)
        rwa [show call + (j + 1) = call + 1 + j from by omega] at this)
      (by rwa [show call + 1 + k = call + (k + 1) from by omega])
    rw [retry_loop_err transport url max_retries call attempt backoff m hm,
      if_neg (by omega)]
    simp only [hrest]
    rw [← backoff_cons backoff k]

theorem retry_loop_exhaust (transport : Nat → TransportResult)
    (url : String) (max_retries : Nat) :
    ∀ m call attempt backoff, 0 < m → attempt + m = max_retries →
      (∀ j, j < m → (transport (call + j)).isErr = true) →
      retry_loop transport url max_retries call attempt backoff
        = ⟨.error (.networkFailure url max_retries), m,
           (List.range (m - 1)).map fun i => backoff * 2 ^ i⟩ := by
  intro m
  induction m with
  | zero => intro _ _ _ h0; exact absurd h0 (by omega)
  | succ m ih =>
    intro call attempt backoff _ hmax hfail
    have h0 : (transport call).isErr = true := by
      have := hfail 0 (by omega)
      rwa [show call + 0 = call from rfl] at this
    obtain ⟨msg, hm⟩ : ∃ msg, transport call = .err msg := by
      cases he : transport call with
      | ok resp => rw [he] at h0; exact absurd h0 (by simp [TransportResult.isErr])
      | err msg => exact ⟨msg, rfl⟩
    rw [retry_loop_err transport url max_retries call attempt backoff msg hm]
    by_cases hstop : max_retries ≤ attempt + 1
    · rw [if_pos hstop]
      have hm1 : m = 0 := by omega
      have hatt : attempt + 1 = max_retries := by omega
      subst hm1
      rw [hatt]
      rfl
    · rw [if_neg hstop]
      have hm0 : 0 < m := by omega
      have hrest := ih (call + 1) (attempt + 1) (backoff * 2) hm0 (by omega)
        (by
          intro j hj
          have := hfail (j + 1) (by omega)
          rwa [show call + (j + 1) = call + 1 + j from by omega] at this)
      simp only [hrest]
      rw [show (m + 1 - 1) = (m - 1) + 1 from by omega,
        backoff_cons backoff (m - 1)]

/-- C4: with `max_retries = 5`, if the transport fails exactly `k < 5`
times and then delivers a 2xx response, both retry helpers return that
response using `k + 1` total attempts with sleeps 2, 4, 8, ... seconds
between attempts; if the transport fails 5 consecutive times, both return a
network error naming the URL and 5 attempts, after 5 calls. -/
theorem retry_helper_policy (transport : Nat → TransportResult)
    (url : String) (k : Nat) (r : HttpResponse) :
    (k < 5 → (∀ j, j < k → (transport j).isErr = true) →
      transport k = .ok r → 200 ≤ r.status → r.status < 300 →
      get_with_retry transport url
          = ⟨.ok r, k + 1, (List.range k).map fun i => 2 ^ (i + 1)⟩ ∧
        post_with_retry transport url
          = ⟨.ok r, k + 1, (List.range k).map fun i => 2 ^ (i + 1)⟩) ∧
    ((∀ j, j < 5 → (transport j).isErr = true) →
      get_with_retry transport url
          = ⟨.error (.networkFailure url 5), 5, [2, 4, 8, 16]⟩ ∧
        post_with_retry transport url
          = ⟨.error (.networkFailure url 5), 5, [2, 4, 8, 16]⟩) := by
  constructor
  · intro hk hfail hok h2 h3
    have hresp := retry_loop_response transport url 5 r k 0 0 2 (by omega)
      (by intro j hj; simpa using hfail j hj) (by simpa using hok)
    rw [if_pos ⟨h2, h3⟩] at hresp
    have hsleeps : ((List.range k).map fun i => 2 * 2 ^ i)
        = (List.range k).map fun i => 2 ^ (i + 1) := by
      refine List.map_congr_left ?_
      intro a ha
      ring
    rw [hsleeps] at hresp
    exact ⟨hresp, hresp⟩
  · intro hfail
    have hexh := retry_loop_exhaust transport url 5 5 0 0 2 (by omega)
      (by omega) (by intro j hj; simpa using hfail j hj)
    have hsleeps : ((List.range (5 - 1)).map fun i => 2 * 2 ^ i)
        = [2, 4, 8, 16] := by decide
    rw [hsleeps] at hexh
    exact ⟨hexh, hexh⟩

/-- Transport used by the retry witnesses: two failures, then success. -/
def transportEx : Nat → TransportResult :=
  fun j => if j < 2 then .err "connection reset" else .ok ⟨200⟩

/-- Witness for C4: two transport failures then a 2xx response yields
success after 3 attempts with sleeps 2 and 4 seconds. -/
theorem retry_helper_policy_witness :
    get_with_retry transportEx "u"
        = ⟨.ok ⟨200⟩, 3, (List.range 2).map fun i => 2 ^ (i + 1)⟩ ∧
      post_with_retry transportEx "u"
        = ⟨.ok ⟨200⟩, 3, (List.range 2).map fun i => 2 ^ (i + 1)⟩ :=
  (retry_helper_policy transportEx "u" 2 ⟨200⟩).1 (by decide)
    (by decide) (by decide) (by decide) (by decide)

/-- C5: a response received with a non-2xx status makes both retry helpers
fail immediately with a status error carrying the code: the total number of
transport calls is exactly the calls made so far, with no retry after the
response. -/
theorem non_2xx_not_retried (transport : Nat → TransportResult)
    (url : String) (k : Nat) (r : HttpResponse)
    (hk : k < 5) (hfail : ∀ j, j < k → (transport j).isErr = true)
    (hok : transport k = .ok r) (hbad : ¬is_success r.status) :
    get_with_retry transport url
        = ⟨.error (.statusFailure url r.status), k + 1,
           (List.range k).map fun i => 2 ^ (i + 1)⟩ ∧
      post_with_retry transport url
        = ⟨.error (.statusFailure url r.status), k + 1,
           (List.range k).map fun i => 2 ^ (i + 1)⟩ := by
  have hresp := retry_loop_response transport url 5 r k 0 0 2 (by omega)
    (by intro j hj; simpa using hfail j hj) (by simpa using hok)
  rw [if_neg hbad] at hresp
  have hsleeps : ((List.range k).map fun i => 2 * 2 ^ i)
      = (List.range k).map fun i => 2 ^ (i + 1) := by
    refine List.map_congr_left ?_
    intro a ha
    ring
  rw [hsleeps] at hresp
  exact ⟨hresp, hresp⟩

/-- Transport used by the C5 witness: an immediate 404 response. -/
def transport404 : Nat → TransportResult := fun _ => .ok ⟨404⟩

/-- Witness for C5: a 404 on the first call fails immediately with the
status code after exactly one call. -/
theorem non_2xx_not_retried_witness :
    get_with_retry transport404 "u"
        = ⟨.error (.statusFailure "u" 404), 1,
           (List.range 0).map fun i => 2 ^ (i + 1)⟩ ∧
      post_with_retry transport404 "u"
        = ⟨.error (.statusFailure "u" 404), 1,
           (List.range 0).map fun i => 2 ^ (i + 1)⟩ :=
  non_2xx_not_retried transport404 "u" 0 ⟨404⟩ (by decide)
    (by intro j hj; exact absurd hj (by omega)) (by decide) (by decide)

/-- Page result of one discovery request: whether the page contains the
target replay id, and the `total` reported by the service (`i32`). -/
structure FindPage where
  found : Bool
  total : Int
deriving DecidableEq

/-- Rust's `total as usize` on an `i32`: sign-extend to 64 bits and
reinterpret, i.e. reduce modulo `2 ^ 64`. -/
def total_as_usize (t : Int) : Nat := (t % (2 ^ 64)).toNat

theorem total_as_usize_lt (t : Int) : total_as_usize t < 2 ^ 64 := by
  unfold total_as_usize
  omega

/-- Mirrors the discovery loop of `download_replay` (lines 244-259):
request the page at `offset`; stop when the id is found, otherwise stop
when `offset >= total as usize`, else advance by 100. Returns the number of
page requests made and whether the id was found. -/
def find_loop (pages : Nat → FindPage) (offset : Nat) : Nat × Bool :=
  if (pages offset).found then (1, true)
  else if total_as_usize (pages offset).total ≤ offset then (1, false)
  else
    let rest := find_loop pages (offset + 100)
    (rest.1 + 1, rest.2)
termination_by 2 ^ 64 - offset
decreasing_by
  have := total_as_usize_lt (pages offset).total
  omega

theorem find_loop_count (pages : Nat → FindPage) (t : Int)
    (habsent : ∀ o, (pages o).found = false)
    (htot : ∀ o, (pages o).total = t) :
    ∀ m offset, total_as_usize t - offset ≤ m →
      (find_loop pages offset).1
        = (total_as_usize t - offset + 99) / 100 + 1 := by
  intro m
  induction m with
  | zero =>
    intro off h
    rw [find_loop, habsent, htot, if_neg (by simp), if_pos (by omega)]
    simp only
    omega
  | succ m ih =>
    intro off h
    rw [find_loop, habsent, htot, if_neg (by simp)]
    by_cases hle : total_as_usize t ≤ off
    · rw [if_pos hle]
      simp only
      omega
    · rw [if_neg hle]
      simp only
      rw [ih (off + 100) (by omega)]
      omega

/-- C6: if the target replay id is absent from every page and the service
consistently reports a (nonnegative, `i32`-ranged) `total`, the discovery
loop terminates after at most `ceil (total / 100) + 1` page requests, and
makes exactly one request when `total = 0`. -/
theorem discovery_pagination_bound (pages : Nat → FindPage) (t : Int)
    (habsent : ∀ o, (pages o).found = false)
    (htot : ∀ o, (pages o).total = t)
    (h0 : 0 ≤ t) (h1 : t < 2 ^ 31) :
    (find_loop pages 0).1 ≤ (t.toNat + 99) / 100 + 1 ∧
      (t = 0 → (find_loop pages 0).1 = 1) := by
  have hT : total_as_usize t = t.toNat := by
    unfold total_as_usize
    omega
  have hcount := find_loop_count pages t habsent htot (total_as_usize t) 0
    (by omega)
  rw [hcount, hT]
  constructor
  · omega
  · intro ht0
    subst ht0
    rfl

/-- Witness for C6 with an absent id and a constant total of 250: exactly
ceil(250/100) + 1 = 4 requests. -/
theorem discovery_pagination_bound_witness :
    ((find_loop (fun _ => ⟨false, 250⟩) 0).1 ≤ ((250 : Int).toNat + 99) / 100 + 1 ∧
      ((250 : Int) = 0 → (find_loop (fun _ => ⟨false, 250⟩) 0).1 = 1)) :=
  discovery_pagination_bound (fun _ => ⟨false, 250⟩) 250
    (fun _ => rfl) (fun _ => rfl) (by decide) (by decide)

/-- Mirrors the `add_event_chunk` closure of `process_replay` (offline
pipeline, lines 514-535): emit nothing when the index cap is reached or
`id`/`group` is missing; take the body bytes from the payload only when its
type tag is `Buffer`, defaulting to the empty buffer. -/
def add_event_chunk (e : Event) (chunk_type : Nat) (index max_count : Nat) :
    Option Chunk :=
  if max_count ≤ index ∨ e.id = none ∨ e.group = none then none
  else
    let event_buffer := (e.data.bind fun ed =>
      if ed.typ = some "Buffer" then ed.data else none).getD []
    some ⟨event_buffer, chunk_type, e.time1.orElse (fun _ => some 0),
      e.time2.orElse (fun _ => some 0), e.id, e.group, e.meta, none⟩

/-- Event with missing id and group and a payload not tagged `Buffer`,
used to refute C7 against the online pipeline. -/
def eventBad : Event := ⟨none, none, none, none, none, some ⟨none, some [1, 2]⟩⟩

/-- Counterexample to C7: the online pipeline (`download_replay`) emits a
type-2 chunk for an event whose id and group are both absent, and takes its
body bytes from a payload that is not tagged as type `Buffer`. -/
theorem online_event_chunk_no_id_check :
    download_event_chunk 2 eventBad
        = some ⟨[1, 2], 2, none, none, none, none, none, none⟩ ∧
      eventBad.id = none ∧ eventBad.group = none ∧
      eventBad.data = some ⟨none, some [1, 2]⟩ :=
  ⟨rfl, rfl, rfl, rfl⟩

/-- C7 (amended): in the offline pipeline (`process_replay`), a type-2/3
chunk is emitted only when the index is below the cap and id and group are
both present, with body bytes taken from the payload only when it is tagged
`Buffer` (empty otherwise); in the online pipeline (`download_replay`), a
chunk is emitted exactly when the payload bytes are present — whenever
`event.data.and_then(d.data)` yields bytes a chunk carrying exactly those
bytes is emitted, with no check of id, group or the payload type tag, and
conversely an emitted chunk always carries present payload bytes. -/
theorem event_chunk_emission (e : Event) (t idx maxC : Nat) :
    (∀ c, add_event_chunk e t idx maxC = some c →
      idx < maxC ∧ e.id.isSome ∧ e.group.isSome ∧
        c.data = (e.data.bind fun ed =>
          if ed.typ = some "Buffer" then ed.data else none).getD []) ∧
    (∀ ed d, e.data = some ed → ed.data = some d →
      download_event_chunk t e
        = some ⟨d, t, e.time1, e.time2, e.id, e.group, e.meta, none⟩) ∧
    (∀ c, download_event_chunk t e = some c →
      ∃ ed d, e.data = some ed ∧ ed.data = some d ∧ c.data = d) := by
  refine ⟨?_, ?_, ?_⟩
  · intro c hc
    rw [add_event_chunk] at hc
    by_cases hcond : maxC ≤ idx ∨ e.id = none ∨ e.group = none
    · rw [if_pos hcond] at hc
      exact absurd hc (by simp)
    · rw [if_neg hcond] at hc
      push_neg at hcond
      obtain ⟨h1, h2, h3⟩ := hcond
      refine ⟨by omega, Option.isSome_iff_ne_none.mpr h2,
        Option.isSome_iff_ne_none.mpr h3, ?_⟩
      have := Option.some.inj hc
      rw [← this]
  · intro ed d hed hd
    rw [download_event_chunk, hed, option_some_bind, hd]
  · intro c hc
    rw [download_event_chunk] at hc
    cases hed : e.data with
    | none =>
      rw [hed] at hc
      exact absurd hc (by simp [Option.bind])
    | some ed =>
      rw [hed, option_some_bind] at hc
      cases hd : ed.data with
      | none =>
        rw [hd] at hc
        exact absurd hc (by simp [Option.bind])
      | some d =>
        rw [hd] at hc
        refine ⟨ed, d, rfl, hd, ?_⟩
        have := Option.some.inj hc
        rw [← this]

/-- Event with id, group and a Buffer-tagged payload, used by the C7
witness. -/
def eventGood : Event :=
  ⟨some "cp0", some "checkpoint", none, none, none, some ⟨some "Buffer", some [3]⟩⟩

/-- Witness for the amended C7: a concrete offline emission at `eventGood`,
and a concrete online emission at `eventBad` (payload bytes present, yet id
and group absent and the payload untagged). -/
theorem event_chunk_emission_witness :
    (0 < 5 ∧ eventGood.id.isSome ∧ eventGood.group.isSome ∧
      ([3] : Bytes) = (eventGood.data.bind fun ed =>
        if ed.typ = some "Buffer" then ed.data else none).getD []) ∧
      download_event_chunk 2 eventBad
        = some ⟨[1, 2], 2, eventBad.time1, eventBad.time2, eventBad.id,
            eventBad.group, eventBad.meta, none⟩ :=
  ⟨(event_chunk_emission eventGood 2 0 5).1
    ⟨[3], 2, some 0, some 0, some "cp0", some "checkpoint", none, none⟩
    (by rfl),
   (event_chunk_emission eventBad 2 0 5).2.1 ⟨none, some [1, 2]⟩ [1, 2]
    rfl rfl⟩

/-- Mirrors the character replacement of `process_replay`'s filename
sanitization: space, slash, backslash and colon become a dash. -/
def sanitize_char (c : Char) : Char :=
  if c = ' ' ∨ c = '/' ∨ c = '\\' ∨ c = ':' then '-' else c

/-- Mirrors `meta.friendly_name.replace([' ', '/', '\\', ':'], "-")`. -/
def sanitize_name (s : String) : String :=
  ⟨s.data.map sanitize_char⟩

/-- Calendar fields of the chrono-parsed `created` timestamp. -/
structure DateTimeParts where
  year : Nat
  month : Nat
  day : Nat
  hour : Nat
  minute : Nat
  second : Nat
deriving DecidableEq

/-- Zero-padded two-digit decimal field of chrono's strftime. -/
def pad2 (n : Nat) : String :=
  if n < 10 then "0" ++ toString n else toString n

/-- Zero-padded four-digit year field of chrono's strftime `%Y`. -/
def pad4 (n : Nat) : String :=
  if n < 10 then "000" ++ toString n
  else if n < 100 then "00" ++ toString n
  else if n < 1000 then "0" ++ toString n
  else toString n

/-- Models chrono's `format("%Y.%m.%d-%H.%M.%S")` on the parsed datetime. -/
def format_date (d : DateTimeParts) : String :=
  pad4 d.year ++ "." ++ pad2 d.month ++ "." ++ pad2 d.day ++ "-"
    ++ pad2 d.hour ++ "." ++ pad2 d.minute ++ "." ++ pad2 d.second

/-- Mirrors the filename composition at the end of `process_replay`
(line 573): sanitized friendly name, game mode and formatted date joined
with dashes, with extension `.replay`; the chrono-parsed `created`
timestamp is abstracted as its calendar fields. -/
def derive_filename (meta : MetaData) (dt : DateTimeParts) : String :=
  sanitize_name meta.friendlyName ++ "-" ++ meta.gameMode ++ "-"
    ++ format_date dt ++ ".replay"

/-- Metadata value used to refute C8. -/
def metaFn : MetaData := ⟨"SND", "a b", false, "", false, 0, 0, "0"⟩

/-- Datetime value used by the filename theorems. -/
def dtEx : DateTimeParts := ⟨2024, 1, 2, 3, 4, 5⟩

/-- Counterexample to C8: the composed filename is
`name-gameMode-date.replay` and contains no parenthesized replay id at all
(no `(` occurs), contradicting the claimed `...date({id}).replay` shape. -/
theorem filename_has_no_id :
    derive_filename metaFn dtEx = "a-b-SND-2024.01.02-03.04.05.replay" ∧
      ¬ '(' ∈ (derive_filename metaFn dtEx).data := by
  constructor
  · rfl
  · decide

/-- C8 (amended): the derived filename replaces every space, slash,
backslash and colon of the friendly name with a dash (so the sanitized name
contains none of those characters) and composes
`name-gameMode-YYYY.MM.DD-HH.MM.SS.replay`, with no replay id component. -/
theorem filename_derivation (meta : MetaData) (dt : DateTimeParts) :
    derive_filename meta dt
        = sanitize_name meta.friendlyName ++ "-" ++ meta.gameMode ++ "-"
          ++ (pad4 dt.year ++ "." ++ pad2 dt.month ++ "." ++ pad2 dt.day
            ++ "-" ++ pad2 dt.hour ++ "." ++ pad2 dt.minute ++ "."
            ++ pad2 dt.second) ++ ".replay" ∧
      (sanitize_name meta.friendlyName).data
          = meta.friendlyName.data.map sanitize_char ∧
      ∀ c, c ∈ (sanitize_name meta.friendlyName).data →
        ¬(c = ' ' ∨ c = '/' ∨ c = '\\' ∨ c = ':') := by
  refine ⟨rfl, rfl, ?_⟩
  intro c hc
  rw [show (sanitize_name meta.friendlyName).data
      = meta.friendlyName.data.map sanitize_char from rfl] at hc
  obtain ⟨c0, _, rfl⟩ := List.mem_map.mp hc
  rw [sanitize_char]
  by_cases h : c0 = ' ' ∨ c0 = '/' ∨ c0 = '\\' ∨ c0 = ':'
  · rw [if_pos h]
    decide
  · rw [if_neg h]
    exact h

/-- Witness for the amended C8 at a concrete metadata and datetime. -/
theorem filename_derivation_witness :
    derive_filename metaFn dtEx
        = sanitize_name metaFn.friendlyName ++ "-" ++ metaFn.gameMode ++ "-"
          ++ (pad4 dtEx.year ++ "." ++ pad2 dtEx.month ++ "." ++ pad2 dtEx.day
            ++ "-" ++ pad2 dtEx.hour ++ "." ++ pad2 dtEx.minute ++ "."
            ++ pad2 dtEx.second) ++ ".replay" ∧
      ¬('-' = ' ' ∨ '-' = '/' ∨ '-' = '\\' ∨ '-' = ':') :=
  ⟨(filename_derivation metaFn dtEx).1,
    (filename_derivation metaFn dtEx).2.2 '-' (by decide)⟩

/-- Decode UTF-16LE bytes back into 16-bit code units (pairs of bytes,
little-endian). -/
def decode_utf16le_units : Bytes → List Nat
  | b0 :: b1 :: rest => (b0 + 256 * b1) :: decode_utf16le_units rest
  | _ => []

/-- Recombine UTF-16 code units into unicode scalar values, folding
surrogate pairs. -/
def decode_utf16_scalars : List Nat → List Nat
  | [] => []
  | [u] => [u]
  | u :: v :: rest =>
    if 0xD800 ≤ u ∧ u < 0xDC00 then
      (0x10000 + (u - 0xD800) * 0x400 + (v - 0xDC00))
        :: decode_utf16_scalars rest
    else u :: decode_utf16_scalars (v :: rest)

theorem decode_scalars_cons (u : Nat) (l : List Nat)
    (h : ¬(0xD800 ≤ u ∧ u < 0xDC00)) :
    decode_utf16_scalars (u :: l) = u :: decode_utf16_scalars l := by
  cases l with
  | nil => rfl
  | cons v rest =>
    rw [show decode_utf16_scalars (u :: v :: rest)
      = if 0xD800 ≤ u ∧ u < 0xDC00 then
          (0x10000 + (u - 0xD800) * 0x400 + (v - 0xDC00))
            :: decode_utf16_scalars rest
        else u :: decode_utf16_scalars (v :: rest) from rfl, if_neg h]

theorem decode_scalars_pair (u v : Nat) (l : List Nat)
    (h : 0xD800 ≤ u ∧ u < 0xDC00) :
    decode_utf16_scalars (u :: v :: l)
      = (0x10000 + (u - 0xD800) * 0x400 + (v - 0xDC00))
        :: decode_utf16_scalars l := by
  rw [show decode_utf16_scalars (u :: v :: l)
    = if 0xD800 ≤ u ∧ u < 0xDC00 then
        (0x10000 + (u - 0xD800) * 0x400 + (v - 0xDC00))
          :: decode_utf16_scalars l
      else u :: decode_utf16_scalars (v :: l) from rfl, if_pos h]

/-- Full UTF-16LE decoding: bytes to units to scalar values. -/
def decode_utf16le (bs : Bytes) : List Nat :=
  decode_utf16_scalars (decode_utf16le_units bs)

/-- UTF-16LE encoding of the composed display string of a metadata value. -/
def name_bytes (meta : MetaData) : Bytes :=
  utf16leBytes (friendly_name_str meta)

theorem char_valid_scalar (c : Char) :
    c.toNat < 0xD800 ∨ (0xDFFF < c.toNat ∧ c.toNat < 0x110000) :=
  c.valid

theorem utf16Units_lt (c : Char) : ∀ u ∈ utf16Units c, u < 0x10000 := by
  intro u hu
  rcases char_valid_scalar c with h | ⟨h1, h2⟩
  · rw [show utf16Units c = [c.toNat] from by
      simp only [utf16Units]
      rw [if_pos (by omega)], List.mem_singleton] at hu
    omega
  · by_cases hbmp : c.toNat < 0x10000
    · rw [show utf16Units c = [c.toNat] from by
        simp only [utf16Units]
        rw [if_pos hbmp], List.mem_singleton] at hu
      omega
    · rw [show utf16Units c = [0xD800 + (c.toNat - 0x10000) / 0x400,
          0xDC00 + (c.toNat - 0x10000) % 0x400] from by
        simp only [utf16Units]
        rw [if_neg hbmp], List.mem_cons, List.mem_singleton] at hu
      rcases hu with hu | hu <;> omega

theorem decode_units_bytes (us : List Nat) (h : ∀ u ∈ us, u < 0x10000) :
    decode_utf16le_units (us.flatMap fun u => [u % 256, u / 256 % 256])
      = us := by
  induction us with
  | nil => rfl
  | cons u rest ih =>
    have hu := h u (List.mem_cons_self u rest)
    rw [List.flatMap_cons, List.cons_append, List.cons_append,
      List.nil_append]
    rw [show decode_utf16le_units (u % 256 :: u / 256 % 256
        :: rest.flatMap fun v => [v % 256, v / 256 % 256])
      = (u % 256 + 256 * (u / 256 % 256))
        :: decode_utf16le_units (rest.flatMap fun v => [v % 256, v / 256 % 256])
      from rfl]
    refine congrArg₂ List.cons (by omega) ?_
    exact ih fun v hv => h v (List.mem_cons_of_mem u hv)

theorem decode_scalars_units (cs : List Char) :
    decode_utf16_scalars (cs.flatMap utf16Units) = cs.map Char.toNat := by
  induction cs with
  | nil => rfl
  | cons c rest ih =>
    rw [List.flatMap_cons, List.map_cons]
    rcases char_valid_scalar c with h | ⟨h1, h2⟩
    · rw [show utf16Units c = [c.toNat] from by
        simp only [utf16Units]
        rw [if_pos (by omega)], List.singleton_append,
        decode_scalars_cons _ _ (by omega)]
      exact congrArg₂ List.cons rfl ih
    · by_cases hbmp : c.toNat < 0x10000
      · rw [show utf16Units c = [c.toNat] from by
          simp only [utf16Units]
          rw [if_pos hbmp], List.singleton_append,
          decode_scalars_cons _ _ (by omega)]
        exact congrArg₂ List.cons rfl ih
      · rw [show utf16Units c = [0xD800 + (c.toNat - 0x10000) / 0x400,
            0xDC00 + (c.toNat - 0x10000) % 0x400] from by
          simp only [utf16Units]
          rw [if_neg hbmp], List.cons_append, List.cons_append,
          List.nil_append, decode_scalars_pair _ _ _ (by omega)]
        refine congrArg₂ List.cons (by omega) ih

theorem utf16_roundtrip (s : String) :
    decode_utf16le (utf16leBytes s) = s.data.map Char.toNat := by
  rw [decode_utf16le, utf16leBytes, decode_units_bytes, decode_scalars_units]
  intro u hu
  obtain ⟨c, _, hc⟩ := List.mem_flatMap.mp hu
  exact utf16Units_lt c u hc

theorem friendly_name_block_take_copy (nb : Bytes) :
    (friendly_name_block nb).take (min nb.length FRIENDLY_NAME_SIZE)
      = nb.take (min nb.length FRIENDLY_NAME_SIZE) := by
  have hlen : (nb.take (min nb.length FRIENDLY_NAME_SIZE)).length
      = min nb.length FRIENDLY_NAME_SIZE := by
    rw [List.length_take]
    omega
  rw [friendly_name_block]
  exact List.take_left' hlen

theorem friendly_name_block_take (nb : Bytes) (h : nb.length ≤ 514) :
    (friendly_name_block nb).take nb.length = nb := by
  have hk : min nb.length FRIENDLY_NAME_SIZE = nb.length := by
    rw [FRIENDLY_NAME_SIZE]
    omega
  have := friendly_name_block_take_copy nb
  rw [hk, List.take_length] at this
  exact this

theorem friendly_name_block_drop (nb : Bytes) (h : nb.length ≤ 514) :
    (friendly_name_block nb).drop nb.length
      = friendly_name_pad.drop nb.length := by
  have hk : min nb.length FRIENDLY_NAME_SIZE = nb.length := by
    rw [FRIENDLY_NAME_SIZE]
    omega
  rw [friendly_name_block, hk, List.take_length]
  exact List.drop_left nb _

/-- C9: if the UTF-16LE encoding of the composed friendly-name display
string is at most 512 bytes, it is recoverable unchanged from the 514-byte
padded block (the copied prefix equals the encoding, decoding it returns
the original characters' scalar values, and the space padding with the
final null terminator beyond it is preserved); if the encoding is longer,
the block holds exactly its first `min (encodedLen, 514)` bytes and
`build_meta` still returns normally whenever `created` parses. -/
theorem friendly_name_roundtrip_truncation (meta : MetaData) :
    ((name_bytes meta).length ≤ 512 →
      (friendly_name_block (name_bytes meta)).take (name_bytes meta).length
          = name_bytes meta ∧
        decode_utf16le ((friendly_name_block (name_bytes meta)).take
            (name_bytes meta).length)
          = (friendly_name_str meta).data.map Char.toNat ∧
        (friendly_name_block (name_bytes meta)).drop (name_bytes meta).length
          = friendly_name_pad.drop (name_bytes meta).length) ∧
    (512 < (name_bytes meta).length →
      (friendly_name_block (name_bytes meta)).take
          (min (name_bytes meta).length 514)
        = (name_bytes meta).take (min (name_bytes meta).length 514) ∧
      ∀ p t, p meta.created = some t →
        ∃ bs, build_meta p meta = .ok bs) := by
  constructor
  · intro hshort
    have htake := friendly_name_block_take (name_bytes meta) (by omega)
    refine ⟨htake, ?_, friendly_name_block_drop (name_bytes meta) (by omega)⟩
    rw [htake]
    exact utf16_roundtrip (friendly_name_str meta)
  · intro hlong
    constructor
    · have := friendly_name_block_take_copy (name_bytes meta)
      rwa [show min (name_bytes meta).length FRIENDLY_NAME_SIZE
          = min (name_bytes meta).length 514 from by rw [FRIENDLY_NAME_SIZE]]
        at this
    · intro p t hp
      obtain ⟨bs, hbs, _⟩ := build_meta_ok p meta t hp
      exact ⟨bs, hbs⟩

/-- Metadata with a friendly name long enough that the composed string's
UTF-16LE encoding exceeds 512 bytes. -/
def metaLong : MetaData :=
  ⟨"SND", String.mk (List.replicate 300 'a'), false, "", false, 0, 0, "0"⟩

set_option maxRecDepth 4000 in
/-- Witness for C9: the short-name case at `metaEx` and the truncation case
at `metaLong`, both concrete. -/
theorem friendly_name_roundtrip_truncation_witness :
    ((friendly_name_block (name_bytes metaEx)).take (name_bytes metaEx).length
          = name_bytes metaEx ∧
        decode_utf16le ((friendly_name_block (name_bytes metaEx)).take
            (name_bytes metaEx).length)
          = (friendly_name_str metaEx).data.map Char.toNat ∧
        (friendly_name_block (name_bytes metaEx)).drop
            (name_bytes metaEx).length
          = friendly_name_pad.drop (name_bytes metaEx).length) ∧
      ((friendly_name_block (name_bytes metaLong)).take
          (min (name_bytes metaLong).length 514)
        = (name_bytes metaLong).take (min (name_bytes metaLong).length 514) ∧
      ∀ p t, p metaLong.created = some t →
        ∃ bs, build_meta p metaLong = .ok bs) :=
  ⟨(friendly_name_roundtrip_truncation metaEx).1 (by decide),
   (friendly_name_roundtrip_truncation metaLong).2 (by decide)⟩

end Pavlov
